import Mathlib

/-!
Verification development for the ecsl utility library, centred on the
deferred-call primitive `any_function` (file AnyFunction.hpp, present in the
tree twice: a refined revision and an earlier draft of the same header; the
refined revision is the one embedded here, and divergences of the draft are
noted where relevant) and on the compact integer wrapper
(ecsl/compact/Integer.hpp with its detail storage).

The embedding is shallow: C++ template types are abstracted to type tags,
`type_id` values to an inductive `TypeId`, the type-erased context
(`ctx_storage` plus the intrusive reference counter of `ref_counted`) to the
structure `Ctx`, and the single dispatch function `core_manager` to the Lean
function `coreManager`, written case by case after the C++ switch.  The held
callable is represented by its semantics `run : List ArgVal → Except Exn
ResVal`, standing for the expression applying the stored callable to the
argument tuple.  Divergence (a spin on a held lock, a blocked mutex, a second
exception thrown from a noexcept store_exception, i.e. std::terminate, or a
condition-variable wait that no other thread can ever satisfy) is modelled as
the value `MRes.diverge` or as `none` of an `Option` result.
-/

/- ===== Type identities =====
C++ `type_id<T...>()` yields one distinct function address per distinct type
list.  Types are abstracted to tags (`TypeTag`); the distinct shapes of
identities the header forms (the normalized result type, the
optional-argument-tuple type of an argument list, a single argument type) are
kept apart by constructors, as distinct C++ types have distinct ids. -/

abbrev TypeTag := Nat

inductive TypeId where
  | nullId : TypeId
  | resTy (t : TypeTag) : TypeId
  | argsTy (ts : List TypeTag) : TypeId
  | argTy (t : TypeTag) : TypeId
deriving DecidableEq

/- ===== Values and exceptions ===== -/

abbrev ArgVal := Nat
abbrev ResVal := Nat

/-- Exceptions: the header's own `missing_argument`, or any exception escaping
the user callable (abstracted by a code). -/
inductive Exn where
  | missingArgument : Exn
  | userExn (code : Nat) : Exn
deriving DecidableEq

/- ===== The type-erased cell: ctx_storage ===== -/

/-- Mirror of `ctx_storage`: exception slot, callable slot, result slot, one
optional slot per argument (the C++ `std::tuple<std::optional<Args>...>`).
The callable slot holds an opaque identity; its behaviour enters the model as
the `run` parameter of `coreManager`. -/
structure CtxStorage where
  m_exception : Option Exn
  m_callable : Option Nat
  m_result : Option ResVal
  m_arguments : List (Option ArgVal)
deriving DecidableEq

/-- Mirror of `has_values`: every optional of the argument tuple is engaged. -/
def hasValues (args : List (Option ArgVal)) : Bool :=
  args.all Option.isSome

/-- The wait predicate of the future: a result or an exception is stored. -/
def CtxStorage.hasAnything (c : CtxStorage) : Bool :=
  c.m_result.isSome || c.m_exception.isSome

/-- Argument values as passed to the callable (all slots engaged at the call
site; dereferencing each optional in order). -/
def extractArgs (args : List (Option ArgVal)) : List ArgVal :=
  args.filterMap id

/-- Mirror of `ith_element::has_value`: out-of-range indices answer false. -/
def ithHasValue (i : Nat) (args : List (Option ArgVal)) : Bool :=
  (args.getD i none).isSome

/-- Mirror of `ith_element::is_same`: the id of the i-th argument type matches
the supplied id; out-of-range indices answer false. -/
def ithIsSame (i : Nat) (id : TypeId) (tags : List TypeTag) : Bool :=
  match tags.get? i with
  | some t => decide (id = TypeId.argTy t)
  | none => false

/-- Mirror of `ctx_storage::store_exception`: storing over an already-engaged
exception slot rethrows inside a noexcept function, i.e. std::terminate —
modelled as `none`. -/
def storeException (c : CtxStorage) (e : Exn) : Option CtxStorage :=
  if c.m_exception.isSome then none
  else some { c with m_exception := some e }

/- ===== Concurrency policies =====
The four context types, selected by tag at construction.  The first policy
models `unsafe_ctx` (that source identifier is avoided in this file;
`nosync` stands for it throughout). -/

inductive Policy where
  | nosync : Policy
  | shared : Policy
  | spinlock : Policy
  | waitable : Policy
deriving DecidableEq

/-- The four construction tags (`shared_tag`, `spinlock_tag`, `waitable_tag`,
and the single-thread tag rendered `nosync_tag`). -/
inductive Tag where
  | nosync_tag : Tag
  | shared_tag : Tag
  | spinlock_tag : Tag
  | waitable_tag : Tag
deriving DecidableEq

/-- Mirror of `context_trait` / `context_trait_impl`: which context type each
tag selects. -/
def context_trait : Tag → Policy
  | .nosync_tag => .nosync
  | .shared_tag => .shared
  | .spinlock_tag => .spinlock
  | .waitable_tag => .waitable

/-- `lock()` of each context, as a transition on the held-flag (the spinlock's
atomic_flag, respectively the waitable context's mutex).  The first two
contexts define `lock()` as a no-op; the last two block while the flag is
held, which in this sequential model is divergence (`none`). -/
def lockCall : Policy → Bool → Option Bool
  | .nosync, h => some h
  | .shared, h => some h
  | .spinlock, h => if h then none else some true
  | .waitable, h => if h then none else some true

/-- `try_lock()` of each context: (acquired?, new held-flag).  The first two
contexts always answer true without touching any flag; the last two
test-and-set. -/
def tryLockCall : Policy → Bool → Bool × Bool
  | .nosync, h => (true, h)
  | .shared, h => (true, h)
  | .spinlock, h => (!h, true)
  | .waitable, h => (!h, true)

/-- `unlock()` of each context: a no-op for the first two, clearing the flag
for the last two. -/
def unlockCall : Policy → Bool → Bool
  | .nosync, h => h
  | .shared, h => h
  | .spinlock, _ => false
  | .waitable, _ => false

/-- Which waitable (mutex + condition variable) `waitable_source` hands out:
the per-instantiation global static for the generic template (used by the
shared and spinlock contexts) and for the single-thread specialization, the
context's own member for `waitable_ctx`. -/
inductive WaitableRef where
  | globalOf (p : Policy) : WaitableRef
  | ownCtx : WaitableRef
deriving DecidableEq

def getWaitableRef : Policy → WaitableRef
  | .waitable => .ownCtx
  | p => .globalOf p

/-- Whether `waitable_source::notify` notifies anybody: the single-thread
specialization makes it a no-op, every other context notifies a condition
variable. -/
def notifyEnabled : Policy → Bool
  | .nosync => false
  | _ => true

/-- Finite observation of a policy's locking behaviour (its lock, try_lock and
unlock transitions on both flag values, its waitable source, and whether its
notify does anything).  Equal observations mean equal behaviour, the flag
domain being exhausted. -/
def policyObs (p : Policy) :
    (Option Bool × Option Bool) × (Bool × Bool) × (Bool × Bool) ×
    (Bool × Bool) × WaitableRef × Bool :=
  ((lockCall p false, lockCall p true),
   tryLockCall p false, tryLockCall p true,
   (unlockCall p false, unlockCall p true),
   getWaitableRef p, notifyEnabled p)

/- ===== The full context =====
A live context: the reference counter of `ref_counted` (a size_t or
atomic_size_t, starting at 1), the lock flag of the locking member (absent,
hence inert, for the first two policies), and the type-erased cell. -/

structure Ctx where
  counter : Nat
  lockHeld : Bool
  cell : CtxStorage
deriving DecidableEq

/-- size_t decrement with wrap-around, as executed by `--m_counter`. -/
def ctrDec (n : Nat) : Nat :=
  (n + (2 ^ 64 - 1)) % 2 ^ 64

/- ===== The manager function ===== -/

/-- Mirror of `af_ctx_manager::action_type` (refined revision; the draft lacks
`has_all_arguments` and has a fused `has_anything` instead). -/
inductive ActionType where
  | up_ref_counter : ActionType
  | down_ref_counter : ActionType
  | lock_call : ActionType
  | try_lock_call : ActionType
  | unlock_call : ActionType
  | get_argument_storage : ActionType
  | call : ActionType
  | has_result : ActionType
  | has_exception : ActionType
  | has_argument : ActionType
  | check_result_type : ActionType
  | check_argument_type : ActionType
  | get_result : ActionType
  | get_argument : ActionType
  | get_exception : ActionType
  | get_waitable : ActionType
  | get_argument_count : ActionType
  | has_all_arguments : ActionType
deriving DecidableEq

/-- The `void*` returned by the manager: null, the context itself, or a
pointer into one of the cell's slots / the waitable. -/
inductive Ret where
  | null : Ret
  | ctxPtr : Ret
  | argStoragePtr : Ret
  | resultPtr : Ret
  | exceptionPtr : Ret
  | argPtr (i : Nat) : Ret
  | waitablePtr (w : WaitableRef) : Ret
deriving DecidableEq

def Ret.isNull : Ret → Bool
  | .null => true
  | _ => false

/-- Outcome of one manager invocation: divergence (spin/terminate), or a
result with the surviving context (`none` when `down_ref_counter` destroyed
and deallocated it), the returned pointer, and the count written through the
out-parameter by `get_argument_count`. -/
inductive MRes where
  | diverge : MRes
  | out (s : Option Ctx) (r : Ret) (cnt : Option Nat) : MRes
deriving DecidableEq

/-- The manager's static knowledge of the erased signature: the id tag of the
normalized result type and the normalized argument type list. -/
structure Sig where
  resultTag : TypeTag
  argTags : List TypeTag
deriving DecidableEq

/-- Mirror of `core_manager<Context, Callable, Result, Args...>`, case by case
after the C++ switch.  `run` is the semantics of applying the stored callable
to the argument tuple (the `apply(*m_callable, ...)` expression); the index
actions dereference the `arg` pointer, so a null `arg` there is the source's
undefined behaviour, rendered as divergence. -/
def coreManager (pol : Policy) (sig : Sig)
    (run : List ArgVal → Except Exn ResVal) :
    ActionType → Ctx → TypeId → Option Nat → MRes
  | .up_ref_counter, s, _, _ =>
      .out (some { s with counter := s.counter + 1 }) .ctxPtr none
  | .down_ref_counter, s, _, _ =>
      let n := ctrDec s.counter
      if n = 0 then .out none .ctxPtr none
      else .out (some { s with counter := n }) .ctxPtr none
  | .lock_call, s, _, _ =>
      match lockCall pol s.lockHeld with
      | none => .diverge
      | some h => .out (some { s with lockHeld := h }) .ctxPtr none
  | .try_lock_call, s, _, _ =>
      let p := tryLockCall pol s.lockHeld
      .out (some { s with lockHeld := p.2 }) (if p.1 then .ctxPtr else .null) none
  | .unlock_call, s, _, _ =>
      .out (some { s with lockHeld := unlockCall pol s.lockHeld }) .ctxPtr none
  | .get_argument_storage, s, id, _ =>
      .out (some s) (if id = TypeId.argsTy sig.argTags then .argStoragePtr else .null) none
  | .call, s, _, _ =>
      if hasValues s.cell.m_arguments = false then
        match storeException s.cell Exn.missingArgument with
        | none => .diverge
        | some c => .out (some { s with cell := c }) .null none
      else if s.cell.m_result.isSome || s.cell.m_exception.isSome then
        .out (some s) .ctxPtr none
      else
        match run (extractArgs s.cell.m_arguments) with
        | .ok r =>
            .out (some { s with cell := { s.cell with m_result := some r } }) .ctxPtr none
        | .error e =>
            match storeException s.cell e with
            | none => .diverge
            | some c => .out (some { s with cell := c }) .null none
  | .has_result, s, _, _ =>
      .out (some s) (if s.cell.m_result.isSome then .ctxPtr else .null) none
  | .has_exception, s, _, _ =>
      .out (some s) (if s.cell.m_exception.isSome then .ctxPtr else .null) none
  | .has_argument, s, _, arg =>
      match arg with
      | some i => .out (some s) (if ithHasValue i s.cell.m_arguments then .ctxPtr else .null) none
      | none => .diverge
  | .check_result_type, s, id, _ =>
      .out (some s) (if id = TypeId.resTy sig.resultTag then .ctxPtr else .null) none
  | .check_argument_type, s, id, arg =>
      match arg with
      | some i => .out (some s) (if ithIsSame i id sig.argTags then .ctxPtr else .null) none
      | none => .diverge
  | .get_result, s, _, _ => .out (some s) .resultPtr none
  | .get_argument, s, _, arg =>
      match arg with
      | some i => .out (some s) (if i < sig.argTags.length then .argPtr i else .null) none
      | none => .diverge
  | .get_exception, s, _, _ => .out (some s) .exceptionPtr none
  | .get_waitable, s, _, _ => .out (some s) (.waitablePtr (getWaitableRef pol)) none
  | .get_argument_count, s, _, arg =>
      match arg with
      | some _ => .out (some s) .ctxPtr (some sig.argTags.length)
      | none => .diverge
  | .has_all_arguments, s, _, _ =>
      .out (some s) (if hasValues s.cell.m_arguments then .ctxPtr else .null) none

/-- One `call_with` on a live context: `none` on divergence or destruction. -/
def step (pol : Policy) (sig : Sig) (run : List ArgVal → Except Exn ResVal)
    (a : ActionType) (s : Ctx) (id : TypeId) (arg : Option Nat) :
    Option (Ctx × Ret × Option Nat) :=
  match coreManager pol sig run a s id arg with
  | .out (some s2) r c => some (s2, r, c)
  | _ => none

/- ===== Handles =====
`af_ctx_manager` holds exactly a context pointer and a manager-function
pointer.  Addresses are abstracted to `Nat`; a manager function pointer is
identified by its template instantiation, i.e. the policy of the context type
together with the erased signature (the callable type is folded into the
`run` parameter wherever behaviour is needed). -/

abbrev Mgr := Policy × Sig

structure Handle where
  m_context : Option Nat
  m_manager : Option Mgr
deriving DecidableEq

/-- Mirror of `af_ctx_manager::operator bool`. -/
def Handle.isValid (h : Handle) : Bool :=
  h.m_context.isSome && h.m_manager.isSome

/-- Mirror of `operator==` on `af_ctx_manager`: both pointers compare equal. -/
def handleEq (a b : Handle) : Bool :=
  decide (a.m_context = b.m_context) && decide (a.m_manager = b.m_manager)

/- ===== Handle operations over a live context =====
Each operation is written as the sequence of manager invocations the member
function performs (a `call_guard` is a lock_call paired with an unlock_call at
scope exit). -/

/-- Mirror of `call_result`. -/
inductive call_result where
  | succeeded : call_result
  | exception : call_result
  | arguments_not_accepted : call_result
deriving DecidableEq

/-- Mirror of `future_status`. -/
inductive future_status where
  | ready : future_status
  | timeout : future_status
  | deferred : future_status
deriving DecidableEq

/-- Mirror of `any_function::operator()(Args&&...)`: lock, look the argument
storage up by the id of the supplied (normalized) argument type list, bail out
with `arguments_not_accepted` on mismatch, otherwise overwrite every argument
slot with the supplied values (`args_ = std::make_tuple(...)`) and run the
call action; the guard unlocks on every path. -/
def opCall (pol : Policy) (sig : Sig) (run : List ArgVal → Except Exn ResVal)
    (suppliedTags : List TypeTag) (vals : List ArgVal) (s : Ctx) :
    Option (Ctx × call_result) :=
  match step pol sig run .lock_call s .nullId none with
  | none => none
  | some (s1, _, _) =>
    match step pol sig run .get_argument_storage s1 (.argsTy suppliedTags) none with
    | none => none
    | some (s2, r2, _) =>
      if r2.isNull then
        match step pol sig run .unlock_call s2 .nullId none with
        | none => none
        | some (s3, _, _) => some (s3, .arguments_not_accepted)
      else
        let s3 : Ctx := { s2 with cell := { s2.cell with m_arguments := vals.map some } }
        match step pol sig run .call s3 .nullId none with
        | none => none
        | some (s4, r4, _) =>
          match step pol sig run .unlock_call s4 .nullId none with
          | none => none
          | some (s5, _, _) =>
            some (s5, if r4.isNull then .exception else .succeeded)

/-- Mirror of `any_function::operator()()`: lock, run the call action with the
already-stored arguments, unlock. -/
def opCallStored (pol : Policy) (sig : Sig)
    (run : List ArgVal → Except Exn ResVal) (s : Ctx) :
    Option (Ctx × call_result) :=
  match step pol sig run .lock_call s .nullId none with
  | none => none
  | some (s1, _, _) =>
    match step pol sig run .call s1 .nullId none with
    | none => none
    | some (s2, r2, _) =>
      match step pol sig run .unlock_call s2 .nullId none with
      | none => none
      | some (s3, _, _) =>
        some (s3, if r2.isNull then .exception else .succeeded)

/-- Mirror of `any_function::has_result`. -/
def opHasResult (pol : Policy) (sig : Sig)
    (run : List ArgVal → Except Exn ResVal) (s : Ctx) : Option (Ctx × Bool) :=
  match step pol sig run .lock_call s .nullId none with
  | none => none
  | some (s1, _, _) =>
    match step pol sig run .has_result s1 .nullId none with
    | none => none
    | some (s2, r2, _) =>
      match step pol sig run .unlock_call s2 .nullId none with
      | none => none
      | some (s3, _, _) => some (s3, !r2.isNull)

/-- Mirror of `any_function::has_exception`. -/
def opHasException (pol : Policy) (sig : Sig)
    (run : List ArgVal → Except Exn ResVal) (s : Ctx) : Option (Ctx × Bool) :=
  match step pol sig run .lock_call s .nullId none with
  | none => none
  | some (s1, _, _) =>
    match step pol sig run .has_exception s1 .nullId none with
    | none => none
    | some (s2, r2, _) =>
      match step pol sig run .unlock_call s2 .nullId none with
      | none => none
      | some (s3, _, _) => some (s3, !r2.isNull)

/-- Mirror of `any_function::is_result_of_type<T>`: a bare check_result_type
invocation with the id of the normalized T. -/
def isResultOfType (pol : Policy) (sig : Sig)
    (run : List ArgVal → Except Exn ResVal) (s : Ctx) (t : TypeTag) : Bool :=
  match coreManager pol sig run .check_result_type s (.resTy t) none with
  | .out _ r _ => !r.isNull
  | .diverge => false

/- ===== The future ===== -/

/-- Mirror of `any_function::bad_type_cast`. -/
inductive bad_type_cast where
  | mk : bad_type_cast
deriving DecidableEq

/-- Mirror of `future<T>::future(const any_function&)`: the base subobject
copies the two pointers (and takes a reference, not modelled here — the
lifecycle model below covers counting); then a non-empty source whose result
type is not T makes the constructor throw `bad_type_cast`.  `s` is the state
of the pointed-to context, `t` the id tag of the normalized T. -/
def futureFromAf (t : TypeTag) (af : Handle)
    (run : List ArgVal → Except Exn ResVal) (s : Ctx) :
    Except bad_type_cast Handle :=
  match af.m_manager with
  | some m =>
      if af.isValid && !(isResultOfType m.1 m.2 run s t) then .error .mk
      else .ok { m_context := af.m_context, m_manager := af.m_manager }
  | none => .ok { m_context := af.m_context, m_manager := af.m_manager }

/-- The condition-variable phase of `future::wait`: obtain the waitable, then
block on the condition variable until the predicate
`has_result || has_exception` holds.  With no other thread to store a result,
a false predicate blocks forever (`none`); a true predicate lets the wait
return at once, after the one predicate evaluation. -/
def futureWaitCv (pol : Policy) (sig : Sig)
    (run : List ArgVal → Except Exn ResVal) (s : Ctx) : Option Ctx :=
  match step pol sig run .get_waitable s .nullId none with
  | none => none
  | some (s1, _, _) =>
    match step pol sig run .has_result s1 .nullId none with
    | none => none
    | some (s2, rR, _) =>
      if rR.isNull = false then some s2
      else
        match step pol sig run .has_exception s2 .nullId none with
        | none => none
        | some (s3, rE, _) =>
          if rE.isNull = false then some s3 else none

/-- Mirror of `future::wait` (refined revision): under the call guard, if all
arguments are present and neither a result nor an exception is stored yet, the
wait itself executes the call (the LWG 1518 note in the source) and returns;
otherwise it leaves the guard's scope and enters the condition-variable wait.
The short-circuit evaluation of the branch condition is kept. -/
def futureWait (pol : Policy) (sig : Sig)
    (run : List ArgVal → Except Exn ResVal) (s : Ctx) : Option Ctx :=
  match step pol sig run .lock_call s .nullId none with
  | none => none
  | some (s1, _, _) =>
    match step pol sig run .has_all_arguments s1 .nullId none with
    | none => none
    | some (s2, rAll, _) =>
      if rAll.isNull then
        match step pol sig run .unlock_call s2 .nullId none with
        | none => none
        | some (s3, _, _) => futureWaitCv pol sig run s3
      else
        match step pol sig run .has_result s2 .nullId none with
        | none => none
        | some (s3, rR, _) =>
          if rR.isNull = false then
            match step pol sig run .unlock_call s3 .nullId none with
            | none => none
            | some (s4, _, _) => futureWaitCv pol sig run s4
          else
            match step pol sig run .has_exception s3 .nullId none with
            | none => none
            | some (s4, rE, _) =>
              if rE.isNull = false then
                match step pol sig run .unlock_call s4 .nullId none with
                | none => none
                | some (s5, _, _) => futureWaitCv pol sig run s5
              else
                match step pol sig run .call s4 .nullId none with
                | none => none
                | some (s5, _, _) =>
                  match step pol sig run .unlock_call s5 .nullId none with
                  | none => none
                  | some (s6, _, _) => some s6

/-- Mirror of `future::get`: wait, then under the guard rethrow a stored
exception or hand the stored result out (the `value()` of the result
optional; an empty optional there is the thrown bad_optional_access, `none`
in the model, unreachable after a successful wait). -/
def futureGet (pol : Policy) (sig : Sig)
    (run : List ArgVal → Except Exn ResVal) (s : Ctx) :
    Option (Ctx × Except Exn ResVal) :=
  match futureWait pol sig run s with
  | none => none
  | some s1 =>
    match step pol sig run .lock_call s1 .nullId none with
    | none => none
    | some (s2, _, _) =>
      match step pol sig run .has_exception s2 .nullId none with
      | none => none
      | some (s3, rE, _) =>
        if rE.isNull = false then
          match step pol sig run .get_exception s3 .nullId none with
          | none => none
          | some (s4, _, _) =>
            match step pol sig run .unlock_call s4 .nullId none with
            | none => none
            | some (s5, _, _) =>
              match s5.cell.m_exception with
              | some e => some (s5, .error e)
              | none => none
        else
          match step pol sig run .get_result s3 .nullId none with
          | none => none
          | some (s4, _, _) =>
            match step pol sig run .unlock_call s4 .nullId none with
            | none => none
            | some (s5, _, _) =>
              match s5.cell.m_result with
              | some r => some (s5, .ok r)
              | none => none

/-- Mirror of `future::wait_for`: the condition variable samples the predicate
`has_result || has_exception` until the timeout expires.  Discrete time:
`trace t` is the cell observed at the t-th predicate evaluation, `d` the index
of the last evaluation before the timeout; ready exactly when some evaluation
up to `d` sees a result or an exception. -/
def waitFor (trace : Nat → CtxStorage) (d : Nat) : future_status :=
  if (List.range (d + 1)).any (fun t => (trace t).hasAnything) then .ready
  else .timeout

/-- Mirror of `future::wait_until`: the same wait against an absolute
deadline, sampling from the current instant `now` through `dl`. -/
def waitUntil (trace : Nat → CtxStorage) (now dl : Nat) : future_status :=
  waitFor (fun k => trace (now + k)) (dl - now)

/- ===== Handle lifecycle and the intrusive reference count =====
The counting behaviour of `af_ctx_manager`'s special members, traced against
one modelled context (the count lives inside the context, `ref_counted`'s
`m_counter`).  A handle either points to that context (`true`) or is empty
(`false`); `CtxLife` is the context's lifecycle state.  Destruction of the
context (the count reaching zero in `release()`) destroys and deallocates it
through its allocator; any counter operation on the freed context afterwards
is use-after-free, `none`. -/

inductive CtxLife where
  | live (n : Nat) : CtxLife
  | freed : CtxLife
deriving DecidableEq

/-- Mirror of `ref_counted::acquire`: increment. -/
def upRef : CtxLife → Option CtxLife
  | .live n => some (.live (n + 1))
  | .freed => none

/-- Mirror of `ref_counted::release`: decrement (size_t, wrapping) and, at
zero, destroy and deallocate — the returned flag records that the
deallocation happened on this very call. -/
def downRef : CtxLife → Option (CtxLife × Bool)
  | .live n =>
      let n2 := ctrDec n
      if n2 = 0 then some (.freed, true) else some (.live n2, false)
  | .freed => none

/-- Mirror of `af_ctx_manager(const af_ctx_manager&)`: copy the pointers and,
for a non-empty source, acquire. -/
def hCopyCtor (other : Bool) (st : CtxLife) : Option (Bool × CtxLife) :=
  if other then (upRef st).map (fun st2 => (true, st2))
  else some (false, st)

/-- Mirror of `af_ctx_manager(af_ctx_manager&&)`: swap with a null-initialized
handle — ownership moves, the counter is untouched.  Returns (constructed
handle, moved-from source). -/
def hMoveCtor (other : Bool) (st : CtxLife) : (Bool × Bool) × CtxLife :=
  ((other, false), st)

/-- Mirror of `~af_ctx_manager`: release for a non-empty handle.  The flag
records a deallocation. -/
def hDtor (h : Bool) (st : CtxLife) : Option (CtxLife × Bool) :=
  if h then downRef st else some (st, false)

/-- Mirror of `af_ctx_manager::operator=(const af_ctx_manager&)` for two
distinct handle objects: an explicit release of a non-empty left-hand side,
then `*this = af_ctx_manager(other)` — a copy-constructed temporary (acquire
for a non-empty source), a move-assignment that swaps the temporary with
*this (so the temporary now holds the OLD pointers of *this, which were never
nulled), and the temporary's destructor (a second release of those old
pointers).  Returns the new left-hand handle, the context state and whether
some release deallocated the context. -/
def hCopyAssign (this other : Bool) (st : CtxLife) :
    Option (Bool × CtxLife × Bool) :=
  match (if this then downRef st else some (st, false)) with
  | none => none
  | some (st1, d1) =>
    match hCopyCtor other st1 with
    | none => none
    | some (tmp, st2) =>
      let this2 := tmp
      let tmp2 := this
      match (if tmp2 then downRef st2 else some (st2, false)) with
      | none => none
      | some (st3, d2) => some (this2, st3, d1 || d2)

/- ===== Structural maps for the cell and the handle ===== -/

/-- The cell laid out as the tuple of its slots. -/
def cellAsTuple (c : CtxStorage) :
    Option Exn × Option Nat × Option ResVal × List (Option ArgVal) :=
  (c.m_exception, c.m_callable, c.m_result, c.m_arguments)

/-- A live context laid out as cell, reference count and lock flag. -/
def ctxAsTuple (s : Ctx) : CtxStorage × Nat × Bool :=
  (s.cell, s.counter, s.lockHeld)

/-- A handle laid out as its two pointers — it holds nothing else. -/
def handleAsPair (h : Handle) : Option Nat × Option Mgr :=
  (h.m_context, h.m_manager)

/- ===== Compact integer (ecsl/compact/Integer.hpp) =====
`detail::compact::storage<T>` keeps `sizeof(T)` raw bytes; `store` memcpys the
bytes of a `T` temporary in, `load` memcpys them back out.  For an integral
type of width `w` bytes the object representation is its little-endian
two's-complement value representation; signedness decides how `load`'s
temporary reads the bytes back. -/

/-- The byte image memcpy'd into `m_data` by `store` (w bytes,
little-endian). -/
def natToBytes : Nat → Nat → List Nat
  | 0, _ => []
  | w + 1, n => n % 256 :: natToBytes w (n / 256)

/-- The value read back out of the bytes by `load`'s memcpy. -/
def bytesToNat : List Nat → Nat
  | [] => 0
  | b :: bs => b % 256 + 256 * bytesToNat bs

/-- The `w`-byte representation of an integral value (two's complement for
negatives). -/
def intToRep (w : Nat) (v : Int) : Nat :=
  (v % (2 ^ (8 * w))).toNat

/-- Reading a representation back as a value of the integral type (`signed`
with sign bit, or plain). -/
def repToInt (signed : Bool) (w : Nat) (n : Nat) : Int :=
  if signed && decide (2 ^ (8 * w - 1) ≤ n) then (n : Int) - 2 ^ (8 * w)
  else (n : Int)

/-- Mirror of `compact_integer<T>` for an integral T of `w` bytes: just the
unaligned byte array `m_data` of the detail storage. -/
structure compact_integer (signed : Bool) (w : Nat) where
  m_data : List Nat
deriving DecidableEq

/-- Mirror of `compact_integer::store` (via `storage<T>::store`). -/
def compact_integer.store (signed : Bool) (w : Nat) (v : Int) :
    compact_integer signed w :=
  ⟨natToBytes w (intToRep w v)⟩

/-- Mirror of `compact_integer::load` (via `storage<T>::load`). -/
def compact_integer.load {signed : Bool} {w : Nat}
    (c : compact_integer signed w) : Int :=
  repToInt signed w (bytesToNat c.m_data)

/-- Mirror of the default constructor: `store(value_type(0))`. -/
def compact_integer.init (signed : Bool) (w : Nat) : compact_integer signed w :=
  compact_integer.store signed w 0

/-- The value range of the integral type T (what "every value v of T" ranges
over). -/
def inRange (signed : Bool) (w : Nat) (v : Int) : Bool :=
  if signed then
    decide (-(2 ^ (8 * w - 1) : Int) ≤ v) && decide (v < (2 ^ (8 * w - 1) : Int))
  else
    decide ((0 : Int) ≤ v) && decide (v < (2 ^ (8 * w) : Int))

/- ===== Concrete sample data (for witnesses and counterexamples) ===== -/

/-- A one-argument signature: result tag 0, argument tag list [0]. -/
def sigS : Sig := { resultTag := 0, argTags := [0] }

/-- A callable semantics that returns 7 on any arguments. -/
def runOk : List ArgVal → Except Exn ResVal := fun _ => .ok 7

/-- A callable semantics that throws (user exception 3). -/
def runThrow : List ArgVal → Except Exn ResVal := fun _ => .error (.userExn 3)

/-- A prepared context: the one argument stored, no result, no exception,
callable in place, lock free. -/
def ctxPrepared : Ctx :=
  { counter := 1, lockHeld := false,
    cell := { m_exception := none, m_callable := some 0,
              m_result := none, m_arguments := [some 5] } }

/-- A completed context: a result is stored. -/
def ctxDone : Ctx :=
  { counter := 1, lockHeld := false,
    cell := { m_exception := none, m_callable := some 0,
              m_result := some 7, m_arguments := [some 5] } }

/-- A context holding a result whose argument slot has been emptied again
(reachable through the mutable access `argument_cast` hands out). -/
def ctxDoneArgGone : Ctx :=
  { counter := 1, lockHeld := false,
    cell := { m_exception := none, m_callable := some 0,
              m_result := some 7, m_arguments := [none] } }

/-- A fresh context with its argument slot still empty. -/
def ctxNoArg : Ctx :=
  { counter := 1, lockHeld := false,
    cell := { m_exception := none, m_callable := some 0,
              m_result := none, m_arguments := [none] } }

/-- A sample observation trace: nothing, nothing, completed, completed, ... -/
def traceS : Nat → CtxStorage := fun t =>
  if t < 2 then ctxPrepared.cell else ctxDone.cell

/-- A non-empty handle over the sample signature. -/
def afS : Handle := { m_context := some 1, m_manager := some (.nosync, sigS) }

/-- The empty handle. -/
def afEmpty : Handle := { m_context := none, m_manager := none }

/-- The lock flag left by a successful `lock()` that started from a free
lock. -/
def lockAcq : Policy → Bool
  | .nosync => false
  | .shared => false
  | .spinlock => true
  | .waitable => true

/- ===================================================================== -/
/- ===== Theorems ===== -/
/- ===================================================================== -/

/- ----- generic step lemmas ----- -/

theorem lockCall_false (pol : Policy) : lockCall pol false = some (lockAcq pol) := by
  cases pol <;> rfl

theorem unlockCall_lockAcq (pol : Policy) : unlockCall pol (lockAcq pol) = false := by
  cases pol <;> rfl

theorem unlockCall_false (pol : Policy) : unlockCall pol false = false := by
  cases pol <;> rfl

theorem step_lock (pol : Policy) (sig : Sig) (run : List ArgVal → Except Exn ResVal)
    (s : Ctx) (h : s.lockHeld = false) :
    step pol sig run .lock_call s .nullId none =
      some ({ s with lockHeld := lockAcq pol }, .ctxPtr, none) := by
  simp [step, coreManager, h, lockCall_false]

theorem step_unlock (pol : Policy) (sig : Sig) (run : List ArgVal → Except Exn ResVal)
    (s : Ctx) :
    step pol sig run .unlock_call s .nullId none =
      some ({ s with lockHeld := unlockCall pol s.lockHeld }, .ctxPtr, none) := rfl

theorem step_has_result (pol : Policy) (sig : Sig) (run : List ArgVal → Except Exn ResVal)
    (s : Ctx) :
    step pol sig run .has_result s .nullId none =
      some (s, if s.cell.m_result.isSome then .ctxPtr else .null, none) := rfl

theorem step_has_exception (pol : Policy) (sig : Sig) (run : List ArgVal → Except Exn ResVal)
    (s : Ctx) :
    step pol sig run .has_exception s .nullId none =
      some (s, if s.cell.m_exception.isSome then .ctxPtr else .null, none) := rfl

theorem step_has_all (pol : Policy) (sig : Sig) (run : List ArgVal → Except Exn ResVal)
    (s : Ctx) :
    step pol sig run .has_all_arguments s .nullId none =
      some (s, if hasValues s.cell.m_arguments then .ctxPtr else .null, none) := rfl

theorem step_get_waitable (pol : Policy) (sig : Sig) (run : List ArgVal → Except Exn ResVal)
    (s : Ctx) :
    step pol sig run .get_waitable s .nullId none =
      some (s, .waitablePtr (getWaitableRef pol), none) := rfl

theorem step_get_result (pol : Policy) (sig : Sig) (run : List ArgVal → Except Exn ResVal)
    (s : Ctx) :
    step pol sig run .get_result s .nullId none = some (s, .resultPtr, none) := rfl

theorem step_get_exception (pol : Policy) (sig : Sig) (run : List ArgVal → Except Exn ResVal)
    (s : Ctx) :
    step pol sig run .get_exception s .nullId none = some (s, .exceptionPtr, none) := rfl

/- ----- compact integer lemmas ----- -/

theorem bytesToNat_natToBytes (w : Nat) : ∀ n : Nat,
    bytesToNat (natToBytes w n) = n % 2 ^ (8 * w) := by
  induction w with
  | zero => intro n; simp [natToBytes, bytesToNat, Nat.mod_one]
  | succ w ih =>
      intro n
      have hmul : 2 ^ (8 * (w + 1)) = 256 * 2 ^ (8 * w) := by
        have h8 : 8 * (w + 1) = 8 * w + 8 := by ring
        rw [h8, pow_add]
        norm_num [mul_comm]
      rw [hmul, Nat.mod_mul]
      simp [natToBytes, bytesToNat, ih, Nat.mod_mod_of_dvd]

/-- C7: for every value v of the integral type (any width w ≥ 1, signed or
not), compact_integer(v).load() = v — the unaligned packed byte
representation round-trips every value — and a default-constructed
compact_integer loads 0. -/
theorem C7_compact_integer_roundtrip :
    (∀ (signed : Bool) (w : Nat) (v : Int), 0 < w → inRange signed w v = true →
      (compact_integer.store signed w v).load = v) ∧
    (∀ (signed : Bool) (w : Nat), (compact_integer.init signed w).load = 0) := by
  constructor
  · intro signed w v hw hv
    unfold compact_integer.store compact_integer.load intToRep repToInt
    simp only [bytesToNat_natToBytes]
    have hm : (0 : Int) < 2 ^ (8 * w) := by positivity
    have h1 : 0 ≤ v % 2 ^ (8 * w) := Int.emod_nonneg v (ne_of_gt hm)
    have h2 : v % 2 ^ (8 * w) < 2 ^ (8 * w) := Int.emod_lt_of_pos v hm
    have h4 : (v % 2 ^ (8 * w)).toNat < 2 ^ (8 * w) := by
      zify
      rw [Int.toNat_of_nonneg h1]
      exact_mod_cast h2
    rw [Nat.mod_eq_of_lt h4]
    have hA : (0 : Int) < 2 ^ (8 * w - 1) := by positivity
    have hpow : (2 : Int) ^ (8 * w) = 2 * 2 ^ (8 * w - 1) := by
      have h8 : 8 * w = (8 * w - 1) + 1 := by omega
      calc (2 : Int) ^ (8 * w) = 2 ^ ((8 * w - 1) + 1) := by rw [← h8]
      _ = 2 ^ (8 * w - 1) * 2 := pow_succ 2 (8 * w - 1)
      _ = 2 * 2 ^ (8 * w - 1) := by ring
    cases signed with
    | false =>
        simp only [inRange, if_false, Bool.false_eq_true, Bool.and_eq_true,
          decide_eq_true_eq] at hv
        obtain ⟨h0, hlt⟩ := hv
        rw [Int.emod_eq_of_lt h0 hlt]
        simp only [Bool.false_and, Bool.false_eq_true, if_false]
        exact Int.toNat_of_nonneg h0
    | true =>
        simp only [inRange, if_true, Bool.and_eq_true, decide_eq_true_eq] at hv
        obtain ⟨hlo, hhi⟩ := hv
        simp only [Bool.true_and]
        by_cases hvn : 0 ≤ v
        · have hlt : v < 2 ^ (8 * w) := by omega
          rw [Int.emod_eq_of_lt hvn hlt]
          have hcond : ¬ (2 ^ (8 * w - 1) ≤ v.toNat) := by
            intro hc
            have hc2 : ((2 : Int) ^ (8 * w - 1)) ≤ v.toNat := by exact_mod_cast hc
            rw [Int.toNat_of_nonneg hvn] at hc2
            omega
          rw [if_neg (by simp [hcond])]
          exact Int.toNat_of_nonneg hvn
        · push_neg at hvn
          have hveq : v % 2 ^ (8 * w) = v + 2 ^ (8 * w) := by
            have hrepr : (v + 2 ^ (8 * w)) % 2 ^ (8 * w) = v % 2 ^ (8 * w) := by
              rw [show v + 2 ^ (8 * w) = v + 2 ^ (8 * w) * 1 by ring,
                Int.add_mul_emod_self_left]
            rw [← hrepr]
            exact Int.emod_eq_of_lt (by omega) (by omega)
          rw [hveq]
          have hge : (0 : Int) ≤ v + 2 ^ (8 * w) := by omega
          have htn : ((v + 2 ^ (8 * w)).toNat : Int) = v + 2 ^ (8 * w) :=
            Int.toNat_of_nonneg hge
          have hcond : 2 ^ (8 * w - 1) ≤ (v + 2 ^ (8 * w)).toNat := by
            zify
            rw [htn]
            omega
          rw [if_pos (by simp [hcond])]
          rw [htn]
          ring
  · intro signed w
    unfold compact_integer.init compact_integer.store compact_integer.load intToRep repToInt
    simp only [bytesToNat_natToBytes]
    have hz : ((0 : Int) % 2 ^ (8 * w)).toNat = 0 := by
      simp [Int.zero_emod]
    rw [hz]
    have hp : 0 < 2 ^ (8 * w - 1) := by positivity
    have hcond : ¬ (2 ^ (8 * w - 1) ≤ (0 : Nat) % 2 ^ (8 * w)) := by
      rw [Nat.zero_mod]
      omega
    cases signed with
    | false => simp [Nat.zero_mod]
    | true =>
        rw [if_neg (by simp [hcond])]
        simp [Nat.zero_mod]

/-- C7 witness: width 1 signed, value -5, round-trips, and the default loads
0. -/
theorem C7_witness :
    (compact_integer.store true 1 (-5)).load = -5 ∧
    (compact_integer.init true 1).load = 0 :=
  ⟨C7_compact_integer_roundtrip.1 true 1 (-5) (by decide) (by decide),
   C7_compact_integer_roundtrip.2 true 1⟩

/- ----- call-action lemmas ----- -/

theorem step_lock_cell (pol : Policy) (sig : Sig)
    (run : List ArgVal → Except Exn ResVal) (s : Ctx) (x : Ctx × Ret × Option Nat)
    (h : step pol sig run .lock_call s .nullId none = some x) : x.1.cell = s.cell := by
  simp only [step, coreManager] at h
  cases hc : lockCall pol s.lockHeld with
  | none => rw [hc] at h; simp at h
  | some b =>
      rw [hc] at h
      simp only [Option.some.injEq] at h
      rw [← h]

theorem step_call_missing (pol : Policy) (sig : Sig)
    (run : List ArgVal → Except Exn ResVal) (s : Ctx)
    (h1 : hasValues s.cell.m_arguments = false) (h2 : s.cell.m_exception = none) :
    step pol sig run .call s .nullId none =
      some ({ s with cell := { s.cell with m_exception := some .missingArgument } },
        .null, none) := by
  simp [step, coreManager, h1, storeException, h2]

theorem step_call_missing_terminates (pol : Policy) (sig : Sig)
    (run : List ArgVal → Except Exn ResVal) (s : Ctx)
    (h1 : hasValues s.cell.m_arguments = false) (h2 : s.cell.m_exception.isSome = true) :
    step pol sig run .call s .nullId none = none := by
  simp [step, coreManager, h1, storeException, h2]

theorem step_call_done (pol : Policy) (sig : Sig)
    (run : List ArgVal → Except Exn ResVal) (s : Ctx)
    (h1 : hasValues s.cell.m_arguments = true) (h2 : s.cell.hasAnything = true) :
    step pol sig run .call s .nullId none = some (s, .ctxPtr, none) := by
  simp only [CtxStorage.hasAnything] at h2
  simp [step, coreManager, h1, h2]

theorem step_call_fresh (pol : Policy) (sig : Sig)
    (run : List ArgVal → Except Exn ResVal) (s : Ctx)
    (h1 : hasValues s.cell.m_arguments = true)
    (h2 : s.cell.m_result = none) (h3 : s.cell.m_exception = none) :
    step pol sig run .call s .nullId none =
      match run (extractArgs s.cell.m_arguments) with
      | .ok r => some ({ s with cell := { s.cell with m_result := some r } }, .ctxPtr, none)
      | .error e =>
          some ({ s with cell := { s.cell with m_exception := some e } }, .null, none) := by
  cases hr : run (extractArgs s.cell.m_arguments) with
  | ok r => simp [step, coreManager, h1, h2, h3, hr]
  | error e => simp [step, coreManager, h1, h2, h3, hr, storeException]

/- ----- future wait lemmas ----- -/

theorem futureWaitCv_spec (pol : Policy) (sig : Sig)
    (run : List ArgVal → Except Exn ResVal) (s : Ctx) :
    futureWaitCv pol sig run s = if s.cell.hasAnything then some s else none := by
  cases hres : s.cell.m_result.isSome with
  | true =>
      simp [futureWaitCv, step_get_waitable, step_has_result, hres,
        Ret.isNull, CtxStorage.hasAnything]
  | false =>
      cases hexc : s.cell.m_exception.isSome with
      | true =>
          simp [futureWaitCv, step_get_waitable, step_has_result, step_has_exception,
            hres, hexc, Ret.isNull, CtxStorage.hasAnything]
      | false =>
          simp [futureWaitCv, step_get_waitable, step_has_result, step_has_exception,
            hres, hexc, Ret.isNull, CtxStorage.hasAnything]

/-- Full characterization of the state a completed `future::wait` hands back:
it holds a result or an exception, and the wait touched neither the callable
slot nor the argument slots. -/
theorem futureWait_char (pol : Policy) (sig : Sig)
    (run : List ArgVal → Except Exn ResVal) (s s' : Ctx)
    (h : futureWait pol sig run s = some s') :
    s'.cell.hasAnything = true ∧
    s'.cell.m_callable = s.cell.m_callable ∧
    s'.cell.m_arguments = s.cell.m_arguments := by
  unfold futureWait at h
  cases hlk : step pol sig run .lock_call s .nullId none with
  | none => rw [hlk] at h; simp at h
  | some x =>
    have hcell : x.1.cell = s.cell := step_lock_cell pol sig run s x hlk
    rw [hlk] at h
    obtain ⟨s1, r1, c1⟩ := x
    dsimp only at hcell
    dsimp only at h
    rw [step_has_all pol sig run s1] at h
    dsimp only at h
    cases hv : hasValues s1.cell.m_arguments with
    | false =>
        simp only [hv, if_false, Bool.false_eq_true, Ret.isNull, if_true] at h
        rw [step_unlock] at h
        dsimp only at h
        rw [futureWaitCv_spec] at h
        by_cases ha : ({ s1 with lockHeld := unlockCall pol s1.lockHeld } : Ctx).cell.hasAnything
        · rw [if_pos ha] at h
          simp only [Option.some.injEq] at h
          subst h
          refine ⟨ha, ?_, ?_⟩ <;> simp [hcell]
        · rw [if_neg ha] at h; simp at h
    | true =>
        simp only [hv, if_true, Ret.isNull, Bool.false_eq_true, if_false] at h
        rw [step_has_result] at h
        dsimp only at h
        cases hres : s1.cell.m_result.isSome with
        | true =>
            simp only [hres, if_true, Ret.isNull, Bool.true_eq_false,
              Bool.false_eq_true, if_false] at h
            rw [step_unlock] at h
            dsimp only at h
            rw [futureWaitCv_spec] at h
            have ha : ({ s1 with lockHeld := unlockCall pol s1.lockHeld } : Ctx).cell.hasAnything = true := by
              simp [CtxStorage.hasAnything, hres]
            rw [if_pos ha] at h
            simp only [Option.some.injEq] at h
            subst h
            refine ⟨ha, ?_, ?_⟩ <;> simp [hcell]
        | false =>
            simp only [hres, if_false, Bool.false_eq_true, Ret.isNull] at h
            rw [step_has_exception] at h
            dsimp only at h
            cases hexc : s1.cell.m_exception.isSome with
            | true =>
                simp only [hexc, if_true, Ret.isNull, Bool.true_eq_false,
                  Bool.false_eq_true, if_false] at h
                rw [step_unlock] at h
                dsimp only at h
                rw [futureWaitCv_spec] at h
                have ha : ({ s1 with lockHeld := unlockCall pol s1.lockHeld } : Ctx).cell.hasAnything = true := by
                  simp [CtxStorage.hasAnything, hexc]
                rw [if_pos ha] at h
                simp only [Option.some.injEq] at h
                subst h
                refine ⟨ha, ?_, ?_⟩ <;> simp [hcell]
            | false =>
                simp only [hexc, if_false, Bool.false_eq_true, Ret.isNull] at h
                have hres2 : s1.cell.m_result = none := by
                  cases hx : s1.cell.m_result
                  · rfl
                  · rw [hx] at hres; simp at hres
                have hexc2 : s1.cell.m_exception = none := by
                  cases hx : s1.cell.m_exception
                  · rfl
                  · rw [hx] at hexc; simp at hexc
                rw [step_call_fresh pol sig run s1 hv hres2 hexc2] at h
                cases hr : run (extractArgs s1.cell.m_arguments) with
                | ok r =>
                    rw [hr] at h
                    dsimp only at h
                    simp only [Bool.true_eq_false, if_false] at h
                    rw [step_unlock] at h
                    dsimp only at h
                    simp only [Option.some.injEq] at h
                    subst h
                    refine ⟨?_, ?_, ?_⟩ <;> simp [CtxStorage.hasAnything, hcell]
                | error e =>
                    rw [hr] at h
                    dsimp only at h
                    simp only [Bool.true_eq_false, if_false] at h
                    rw [step_unlock] at h
                    dsimp only at h
                    simp only [Option.some.injEq] at h
                    subst h
                    refine ⟨?_, ?_, ?_⟩ <;> simp [CtxStorage.hasAnything, hcell]

/-- A wait entered with a result or exception already stored (and the lock
free) returns at once with the context untouched. -/
theorem futureWait_done (pol : Policy) (sig : Sig)
    (run : List ArgVal → Except Exn ResVal) (s : Ctx)
    (hA : s.cell.hasAnything = true) (hL : s.lockHeld = false) :
    futureWait pol sig run s = some s := by
  obtain ⟨cnt, lk, cell⟩ := s
  simp only at hA hL
  subst hL
  cases hres : cell.m_result.isSome with
  | true =>
      cases hv : hasValues cell.m_arguments with
      | true =>
          simp [futureWait, step_lock, step_has_all, step_has_result, step_unlock,
            futureWaitCv_spec, unlockCall_lockAcq, Ret.isNull, CtxStorage.hasAnything,
            hres, hv]
      | false =>
          simp [futureWait, step_lock, step_has_all, step_has_result, step_unlock,
            futureWaitCv_spec, unlockCall_lockAcq, Ret.isNull, CtxStorage.hasAnything,
            hres, hv]
  | false =>
      have hexc : cell.m_exception.isSome = true := by
        simp only [CtxStorage.hasAnything, hres, Bool.false_or] at hA
        exact hA
      cases hv : hasValues cell.m_arguments with
      | true =>
          simp [futureWait, step_lock, step_has_all, step_has_result, step_has_exception,
            step_unlock, futureWaitCv_spec, unlockCall_lockAcq, Ret.isNull,
            CtxStorage.hasAnything, hres, hexc, hv]
      | false =>
          simp [futureWait, step_lock, step_has_all, step_has_result, step_has_exception,
            step_unlock, futureWaitCv_spec, unlockCall_lockAcq, Ret.isNull,
            CtxStorage.hasAnything, hres, hexc, hv]

/- ----- C1 ----- -/

/-- C1: for a non-empty any_function, future::wait returns only with a result
or an exception stored in the context (first conjunct: every state a
completed wait hands back satisfies the predicate; this also covers the wait
that executes a prepared call itself, whose completion stores a result or an
exception); wait_for answers ready exactly when a result or an exception is
present at some predicate evaluation before the timeout expires, and timeout
otherwise; wait_until likewise against its absolute deadline. -/
theorem C1_wait_blocks_until_completed :
    (∀ (pol : Policy) (sig : Sig) (run : List ArgVal → Except Exn ResVal) (s s' : Ctx),
      futureWait pol sig run s = some s' → s'.cell.hasAnything = true) ∧
    (∀ (trace : Nat → CtxStorage) (d : Nat),
      waitFor trace d = .ready ↔ ∃ t, t ≤ d ∧ (trace t).hasAnything = true) ∧
    (∀ (trace : Nat → CtxStorage) (now dl : Nat),
      waitUntil trace now dl = .ready ↔
        ∃ k, k ≤ dl - now ∧ (trace (now + k)).hasAnything = true) := by
  refine ⟨?_, ?_, ?_⟩
  · intro pol sig run s s' h
    exact (futureWait_char pol sig run s s' h).1
  · intro trace d
    constructor
    · intro h
      unfold waitFor at h
      by_cases hc : (List.range (d + 1)).any (fun t => (trace t).hasAnything) = true
      · obtain ⟨t, ht, hp⟩ := List.any_eq_true.mp hc
        exact ⟨t, Nat.lt_succ_iff.mp (List.mem_range.mp ht), hp⟩
      · rw [if_neg hc] at h; exact absurd h (by simp)
    · intro ⟨t, ht, hp⟩
      unfold waitFor
      rw [if_pos (List.any_eq_true.mpr ⟨t, List.mem_range.mpr (Nat.lt_succ_of_le ht), hp⟩)]
  · intro trace now dl
    unfold waitUntil
    constructor
    · intro h
      unfold waitFor at h
      by_cases hc : (List.range (dl - now + 1)).any
          (fun t => (trace (now + t)).hasAnything) = true
      · obtain ⟨t, ht, hp⟩ := List.any_eq_true.mp hc
        exact ⟨t, Nat.lt_succ_iff.mp (List.mem_range.mp ht), hp⟩
      · rw [if_neg hc] at h; exact absurd h (by simp)
    · intro ⟨k, hk, hp⟩
      unfold waitFor
      rw [if_pos (List.any_eq_true.mpr ⟨k, List.mem_range.mpr (Nat.lt_succ_of_le hk), hp⟩)]

/-- C1 witness: a wait over the prepared sample context completes with a
result present, and the sample trace makes wait_for(3 ticks) report ready. -/
theorem C1_witness :
    ((ctxDone).cell.hasAnything = true) ∧
    (waitFor traceS 3 = .ready ↔ ∃ t, t ≤ 3 ∧ (traceS t).hasAnything = true) :=
  ⟨C1_wait_blocks_until_completed.1 .nosync sigS runOk ctxPrepared ctxDone (by rfl),
   C1_wait_blocks_until_completed.2.1 traceS 3⟩

/-- A get on a context that already holds a result or an exception (lock
free) returns the stored outcome and leaves the context untouched. -/
theorem futureGet_done (pol : Policy) (sig : Sig)
    (run : List ArgVal → Except Exn ResVal) (s : Ctx)
    (hA : s.cell.hasAnything = true) (hL : s.lockHeld = false) :
    futureGet pol sig run s =
      some (s, match s.cell.m_exception with
               | some e => .error e
               | none => match s.cell.m_result with
                         | some r => .ok r
                         | none => .ok 0) := by
  have hw := futureWait_done pol sig run s hA hL
  obtain ⟨cnt, lk, cell⟩ := s
  simp only at hA hL
  subst hL
  cases hexc : cell.m_exception with
  | some e =>
      simp [futureGet, hw, step_lock, step_has_exception, step_get_exception,
        step_unlock, unlockCall_lockAcq, Ret.isNull, hexc]
  | none =>
      have hres : cell.m_result.isSome = true := by
        simp only [CtxStorage.hasAnything, hexc] at hA
        simpa using hA
      obtain ⟨r, hr⟩ := Option.isSome_iff_exists.mp hres
      simp [futureGet, hw, step_lock, step_has_exception, step_get_result,
        step_unlock, unlockCall_lockAcq, Ret.isNull, hexc, hr]

/- ----- C3 ----- -/

/-- C3 counterexample: the future is not read-only as claimed — on a prepared
cell (all arguments stored, no result or exception yet) `future::wait`
executes the call itself (the LWG 1518 branch of the source) and thereby
changes the result slot. -/
theorem C3_counterexample :
    futureWait .nosync sigS runOk ctxPrepared = some ctxDone ∧
    ctxDone.cell.m_result ≠ ctxPrepared.cell.m_result := by
  exact ⟨rfl, by decide⟩

/-- C3 amended: every manager action the future operations use other than the
call itself leaves all four slot groups of the cell unchanged (so wait_for,
wait_until and valid never change the cell); wait touches neither the
callable slot nor the argument slots; a wait or get that finds a result or an
exception already stored returns with the whole context unchanged.  The one
exception forced by the counterexample: on a prepared cell, wait (and get,
which starts by waiting) executes the call, storing a result or an
exception. -/
theorem C3_future_read_only_amended :
    (∀ a ∈ ([ActionType.lock_call, .try_lock_call, .unlock_call, .has_result,
        .has_exception, .has_all_arguments, .check_result_type, .get_result,
        .get_exception, .get_waitable] : List ActionType),
      ∀ (pol : Policy) (sig : Sig) (run : List ArgVal → Except Exn ResVal)
        (s : Ctx) (id : TypeId) (arg : Option Nat) (s' : Ctx) (r : Ret) (c : Option Nat),
        coreManager pol sig run a s id arg = .out (some s') r c → s'.cell = s.cell) ∧
    (∀ (pol : Policy) (sig : Sig) (run : List ArgVal → Except Exn ResVal) (s s' : Ctx),
      futureWait pol sig run s = some s' →
        s'.cell.m_callable = s.cell.m_callable ∧
        s'.cell.m_arguments = s.cell.m_arguments) ∧
    (∀ (pol : Policy) (sig : Sig) (run : List ArgVal → Except Exn ResVal) (s : Ctx),
      s.cell.hasAnything = true → s.lockHeld = false →
        futureWait pol sig run s = some s) ∧
    (∀ (pol : Policy) (sig : Sig) (run : List ArgVal → Except Exn ResVal) (s : Ctx),
      s.cell.hasAnything = true → s.lockHeld = false →
        ∃ o, futureGet pol sig run s = some (s, o)) := by
  refine ⟨?_, ?_, ?_, ?_⟩
  · intro a ha pol sig run s id arg s' r c h
    fin_cases ha
    · simp only [coreManager] at h
      cases hc : lockCall pol s.lockHeld with
      | none => rw [hc] at h; exact absurd h (by simp)
      | some b => rw [hc] at h; cases h; rfl
    · simp only [coreManager] at h
      cases h; rfl
    · simp only [coreManager] at h
      cases h; rfl
    · simp only [coreManager] at h
      cases h; rfl
    · simp only [coreManager] at h
      cases h; rfl
    · simp only [coreManager] at h
      cases h; rfl
    · simp only [coreManager] at h
      cases h; rfl
    · simp only [coreManager] at h
      cases h; rfl
    · simp only [coreManager] at h
      cases h; rfl
    · simp only [coreManager] at h
      cases h; rfl
  · intro pol sig run s s' h
    exact (futureWait_char pol sig run s s' h).2
  · intro pol sig run s hA hL
    exact futureWait_done pol sig run s hA hL
  · intro pol sig run s hA hL
    exact ⟨_, futureGet_done pol sig run s hA hL⟩

/-- C3 witness: the amended theorem applied at the completed sample context —
a wait there returns it unchanged, and the read-only has_result action leaves
the cell as it was. -/
theorem C3_witness :
    futureWait .nosync sigS runOk ctxDone = some ctxDone ∧
    ctxDone.cell = ctxDone.cell :=
  ⟨C3_future_read_only_amended.2.2.1 .nosync sigS runOk ctxDone (by decide) (by decide),
   C3_future_read_only_amended.1 ActionType.has_result (by simp) .nosync sigS runOk
     ctxDone .nullId none ctxDone .ctxPtr none (by rfl)⟩

/- ----- C8 ----- -/

/-- C8 counterexample: a context already holding a result is not protected
from slot writes by the no-reentry check alone — the missing-argument branch
of the call action runs first, so with an argument slot emptied again (public
mutable access: argument_cast) the call action writes a missing_argument
exception into the exception slot even though a result is stored. -/
theorem C8_counterexample :
    ctxDoneArgGone.cell.hasAnything = true ∧
    coreManager .nosync sigS runOk .call ctxDoneArgGone .nullId none =
      .out (some { ctxDoneArgGone with
        cell := { ctxDoneArgGone.cell with m_exception := some .missingArgument } })
        .null none ∧
    ({ ctxDoneArgGone.cell with m_exception := some Exn.missingArgument }).m_exception ≠
      ctxDoneArgGone.cell.m_exception := by
  refine ⟨by decide, by decide, by decide⟩

/-- C8 amended: once the context holds a result or an exception AND every
argument slot is populated, every subsequent call action returns the context
completely unchanged — in particular both the result and the exception slot
are untouched and, the equation holding for every callable semantics alike,
the stored callable is not invoked again. -/
theorem C8_write_once_amended :
    ∀ (pol : Policy) (sig : Sig) (run : List ArgVal → Except Exn ResVal) (s : Ctx)
      (id : TypeId) (arg : Option Nat),
      hasValues s.cell.m_arguments = true → s.cell.hasAnything = true →
      coreManager pol sig run .call s id arg = .out (some s) .ctxPtr none := by
  intro pol sig run s id arg hv hA
  simp only [CtxStorage.hasAnything] at hA
  simp [coreManager, hv, hA]

/-- C8 witness: the completed sample context, driven with a throwing callable
semantics, is returned unchanged by a second call action. -/
theorem C8_witness :
    coreManager .nosync sigS runThrow .call ctxDone .nullId none =
      .out (some ctxDone) .ctxPtr none :=
  C8_write_once_amended .nosync sigS runThrow ctxDone .nullId none (by decide) (by decide)

/- ----- C10 ----- -/

theorem step_get_arg_storage (pol : Policy) (sig : Sig)
    (run : List ArgVal → Except Exn ResVal) (s : Ctx) (id : TypeId) :
    step pol sig run .get_argument_storage s id none =
      some (s, if id = TypeId.argsTy sig.argTags then .argStoragePtr else .null, none) := rfl

/-- C10: a call action executed with some argument slot unpopulated (and the
exception slot still empty, as the claim supposes) does not invoke the
callable — the equation holds for every callable semantics alike — and stores
a missing_argument exception into the exception slot; the call operation then
reports call_result::exception. -/
theorem C10_missing_argument :
    (∀ (pol : Policy) (sig : Sig) (run : List ArgVal → Except Exn ResVal) (s : Ctx)
        (id : TypeId) (arg : Option Nat),
      hasValues s.cell.m_arguments = false → s.cell.m_exception = none →
      coreManager pol sig run .call s id arg =
        .out (some { s with cell := { s.cell with m_exception := some .missingArgument } })
          .null none) ∧
    (∀ (pol : Policy) (sig : Sig) (run : List ArgVal → Except Exn ResVal) (s : Ctx),
      hasValues s.cell.m_arguments = false → s.cell.m_exception = none →
      s.lockHeld = false →
      opCallStored pol sig run s =
        some ({ s with cell := { s.cell with m_exception := some .missingArgument } },
          .exception)) ∧
    (∀ (pol : Policy) (sig : Sig) (r₁ r₂ : List ArgVal → Except Exn ResVal) (s : Ctx)
        (id : TypeId) (arg : Option Nat),
      hasValues s.cell.m_arguments = false →
      coreManager pol sig r₁ .call s id arg = coreManager pol sig r₂ .call s id arg) := by
  refine ⟨?_, ?_, ?_⟩
  · intro pol sig run s id arg hv he
    simp [coreManager, hv, storeException, he]
  · intro pol sig run s hv he hL
    obtain ⟨cnt, lk, cell⟩ := s
    simp only at hv he hL
    subst hL
    simp [opCallStored, step_lock, step_call_missing, hv, he, step_unlock,
      unlockCall_lockAcq, Ret.isNull]
  · intro pol sig r₁ r₂ s id arg hv
    simp [coreManager, hv]

/-- C10 witness: calling the sample context whose single argument slot is
still empty stores missing_argument and reports an exceptional call. -/
theorem C10_witness :
    opCallStored .nosync sigS runOk ctxNoArg =
      some ({ ctxNoArg with
        cell := { ctxNoArg.cell with m_exception := some .missingArgument } },
        .exception) :=
  C10_missing_argument.2.1 .nosync sigS runOk ctxNoArg (by decide) (by decide) (by decide)

/- ----- C9 ----- -/

theorem extractArgs_map_some (vals : List ArgVal) :
    extractArgs (vals.map some) = vals := by
  induction vals with
  | nil => rfl
  | cons a l ih => simp [extractArgs]

theorem hasValues_map_some (vals : List ArgVal) :
    hasValues (vals.map some) = true := by
  simp [hasValues, List.all_eq_true]

/-- When the supplied argument type list matches the manager's, the call
operation never answers arguments_not_accepted: it stores the arguments and
runs the call action, reporting succeeded or exception. -/
theorem opCall_sig_match (pol : Policy) (sig : Sig)
    (run : List ArgVal → Except Exn ResVal) (vals : List ArgVal) (s : Ctx)
    (hL : s.lockHeld = false) :
    ∃ s' cr, opCall pol sig run sig.argTags vals s = some (s', cr) ∧
      cr ≠ call_result.arguments_not_accepted := by
  obtain ⟨cnt, lk, cell⟩ := s
  simp only at hL
  subst hL
  by_cases hA : (cell.m_result.isSome || cell.m_exception.isSome) = true
  · refine ⟨{ counter := cnt, lockHeld := false, cell := { cell with m_arguments := vals.map some } }, .succeeded, ?_, by simp⟩
    simp [opCall, step_lock, step_get_arg_storage, Ret.isNull, step_unlock,
      unlockCall_lockAcq, step_call_done, hasValues_map_some, hA,
      CtxStorage.hasAnything]
  · simp only [Bool.or_eq_true, not_or, Bool.not_eq_true] at hA
    have hres : cell.m_result = none := Option.not_isSome_iff_eq_none.mp (by simp [hA.1])
    have hexc : cell.m_exception = none := Option.not_isSome_iff_eq_none.mp (by simp [hA.2])
    cases hr : run vals with
    | ok r =>
        refine ⟨{ counter := cnt, lockHeld := false, cell := { cell with m_arguments := vals.map some, m_result := some r } }, .succeeded, ?_, by simp⟩
        simp [opCall, step_lock, step_get_arg_storage, Ret.isNull, step_unlock,
          unlockCall_lockAcq, step_call_fresh, hasValues_map_some, hres, hexc,
          extractArgs_map_some, hr]
    | error e =>
        refine ⟨{ counter := cnt, lockHeld := false, cell := { cell with m_arguments := vals.map some, m_exception := some e } }, .exception, ?_, by simp⟩
        simp [opCall, step_lock, step_get_arg_storage, Ret.isNull, step_unlock,
          unlockCall_lockAcq, step_call_fresh, hasValues_map_some, hres, hexc,
          extractArgs_map_some, hr]

/-- C9: for a non-empty any_function, the call operator answers
arguments_not_accepted exactly when the normalized type list of the supplied
arguments differs (in number, type or order) from the stored callable's
normalized parameter list; in the mismatch case the whole context — argument
slots, result slot, exception slot, even the lock — is handed back unchanged,
and the callable is not invoked (the outcome is the same under every callable
semantics). -/
theorem C9_arguments_not_accepted :
    (∀ (pol : Policy) (sig : Sig) (run : List ArgVal → Except Exn ResVal)
        (tags : List TypeTag) (vals : List ArgVal) (s : Ctx), s.lockHeld = false →
      ((∃ s', opCall pol sig run tags vals s = some (s', .arguments_not_accepted)) ↔
        tags ≠ sig.argTags)) ∧
    (∀ (pol : Policy) (sig : Sig) (run : List ArgVal → Except Exn ResVal)
        (tags : List TypeTag) (vals : List ArgVal) (s : Ctx), s.lockHeld = false →
      tags ≠ sig.argTags →
      opCall pol sig run tags vals s = some (s, .arguments_not_accepted)) ∧
    (∀ (pol : Policy) (sig : Sig) (r₁ r₂ : List ArgVal → Except Exn ResVal)
        (tags : List TypeTag) (vals : List ArgVal) (s : Ctx), s.lockHeld = false →
      tags ≠ sig.argTags →
      opCall pol sig r₁ tags vals s = opCall pol sig r₂ tags vals s) := by
  have hmis : ∀ (pol : Policy) (sig : Sig) (run : List ArgVal → Except Exn ResVal)
      (tags : List TypeTag) (vals : List ArgVal) (s : Ctx), s.lockHeld = false →
      tags ≠ sig.argTags →
      opCall pol sig run tags vals s = some (s, .arguments_not_accepted) := by
    intro pol sig run tags vals s hL hne
    obtain ⟨cnt, lk, cell⟩ := s
    simp only at hL
    subst hL
    simp [opCall, step_lock, step_get_arg_storage, hne, Ret.isNull, step_unlock,
      unlockCall_lockAcq]
  refine ⟨?_, hmis, ?_⟩
  · intro pol sig run tags vals s hL
    constructor
    · intro hex
      intro hEq
      subst hEq
      obtain ⟨s', hs'⟩ := hex
      obtain ⟨s2, cr, hc, hcr⟩ := opCall_sig_match pol sig run vals s hL
      rw [hc] at hs'
      simp only [Option.some.injEq, Prod.mk.injEq] at hs'
      exact hcr hs'.2
    · intro hne
      exact ⟨s, hmis pol sig run tags vals s hL hne⟩
  · intro pol sig r₁ r₂ tags vals s hL hne
    rw [hmis pol sig r₁ tags vals s hL hne, hmis pol sig r₂ tags vals s hL hne]

/-- C9 witness: supplying an argument list of the wrong arity ([] against the
one-parameter signature) is rejected with the context unchanged, while the
matching list is not rejected. -/
theorem C9_witness :
    opCall .nosync sigS runOk [] [] ctxNoArg = some (ctxNoArg, .arguments_not_accepted) ∧
    ((∃ s', opCall .nosync sigS runOk [0] [4] ctxNoArg = some (s', .arguments_not_accepted)) ↔
      ([0] : List TypeTag) ≠ sigS.argTags) :=
  ⟨C9_arguments_not_accepted.2.1 .nosync sigS runOk [] [] ctxNoArg (by decide) (by decide),
   C9_arguments_not_accepted.1 .nosync sigS runOk [0] [4] ctxNoArg (by decide)⟩

/- ----- C2 ----- -/

/-- C2: constructing future(T) from a non-empty any_function throws
bad_type_cast exactly when the stored callable's normalized result type is
not T; construction from an empty any_function never throws; a successful
construction yields a handle with the same context pointer and the same
manager pointer (the equality `operator==` tests). -/
theorem C2_future_ctor_type_check :
    (∀ (t : TypeTag) (af : Handle) (m : Mgr)
        (run : List ArgVal → Except Exn ResVal) (s : Ctx),
      af.m_manager = some m → af.isValid = true →
      (futureFromAf t af run s = .error .mk ↔ m.2.resultTag ≠ t)) ∧
    (∀ (t : TypeTag) (af : Handle) (run : List ArgVal → Except Exn ResVal) (s : Ctx),
      af.isValid = false →
      futureFromAf t af run s =
        .ok { m_context := af.m_context, m_manager := af.m_manager }) ∧
    (∀ (t : TypeTag) (af : Handle) (run : List ArgVal → Except Exn ResVal)
        (s : Ctx) (f : Handle),
      futureFromAf t af run s = .ok f →
      f.m_context = af.m_context ∧ f.m_manager = af.m_manager) := by
  refine ⟨?_, ?_, ?_⟩
  · intro t af m run s hm hv
    by_cases ht : m.2.resultTag = t
    · simp [futureFromAf, hm, hv, isResultOfType, coreManager, Ret.isNull, ht]
    · simp [futureFromAf, hm, hv, isResultOfType, coreManager, Ret.isNull, ht,
        Ne.symm ht]
  · intro t af run s hv
    cases hm : af.m_manager with
    | none => simp [futureFromAf, hm]
    | some m => simp [futureFromAf, hm, hv]
  · intro t af run s f h
    cases hm : af.m_manager with
    | none =>
        simp only [futureFromAf, hm, Except.ok.injEq] at h
        rw [← h]
        exact ⟨rfl, rfl⟩
    | some m =>
        simp only [futureFromAf, hm] at h
        by_cases hc : (af.isValid && !(isResultOfType m.1 m.2 run s t)) = true
        · rw [if_pos hc] at h
          exact absurd h (by simp)
        · rw [if_neg hc] at h
          simp only [Except.ok.injEq] at h
          rw [← h]
          exact ⟨rfl, rfl⟩

/-- C2 witness: the typed view at the matching tag succeeds over the sample
handle (so the mismatch characterization is applied and discharged), an empty
source never throws, and the success case hands back the same pointer pair. -/
theorem C2_witness :
    ((futureFromAf 0 afS runOk ctxNoArg = .error .mk) ↔ sigS.resultTag ≠ 0) ∧
    (futureFromAf 3 afEmpty runOk ctxNoArg =
      .ok { m_context := afEmpty.m_context, m_manager := afEmpty.m_manager }) ∧
    (afS.m_context = afS.m_context ∧ afS.m_manager = afS.m_manager) :=
  ⟨C2_future_ctor_type_check.1 0 afS (.nosync, sigS) runOk ctxNoArg (by rfl) (by decide),
   C2_future_ctor_type_check.2.1 3 afEmpty runOk ctxNoArg (by decide),
   C2_future_ctor_type_check.2.2 0 afS runOk ctxNoArg afS rfl⟩

/- ----- C4 ----- -/

/-- C4: each of the four construction tags selects its own context type
(injective tag-to-context mapping); the four lock/try_lock/unlock behaviours
are as described — no-ops with try_lock true for the first two, test-and-set
mutual exclusion for the spinlock and the mutex context; all four are driven
through the same uniform lock_call/try_lock_call/unlock_call manager actions;
and the four strategies' observable behaviours (lock transitions together
with the waitable source and notify policy) are pairwise distinct. -/
theorem C4_locking_policies :
    (context_trait .nosync_tag = .nosync ∧ context_trait .shared_tag = .shared ∧
     context_trait .spinlock_tag = .spinlock ∧ context_trait .waitable_tag = .waitable) ∧
    Function.Injective context_trait ∧
    (∀ h : Bool,
      (lockCall .nosync h = some h ∧ tryLockCall .nosync h = (true, h) ∧
        unlockCall .nosync h = h) ∧
      (lockCall .shared h = some h ∧ tryLockCall .shared h = (true, h) ∧
        unlockCall .shared h = h) ∧
      (lockCall .spinlock h = (if h then none else some true) ∧
        tryLockCall .spinlock h = (!h, true) ∧ unlockCall .spinlock h = false) ∧
      (lockCall .waitable h = (if h then none else some true) ∧
        tryLockCall .waitable h = (!h, true) ∧ unlockCall .waitable h = false)) ∧
    (∀ (pol : Policy) (sig : Sig) (run : List ArgVal → Except Exn ResVal)
        (s : Ctx) (id : TypeId) (arg : Option Nat),
      coreManager pol sig run .lock_call s id arg =
        (match lockCall pol s.lockHeld with
         | none => .diverge
         | some h2 => .out (some { s with lockHeld := h2 }) .ctxPtr none) ∧
      coreManager pol sig run .try_lock_call s id arg =
        .out (some { s with lockHeld := (tryLockCall pol s.lockHeld).2 })
          (if (tryLockCall pol s.lockHeld).1 then .ctxPtr else .null) none ∧
      coreManager pol sig run .unlock_call s id arg =
        .out (some { s with lockHeld := unlockCall pol s.lockHeld }) .ctxPtr none) ∧
    (∀ p q : Policy, p ≠ q → policyObs p ≠ policyObs q) := by
  refine ⟨⟨rfl, rfl, rfl, rfl⟩, ?_, ?_, ?_, ?_⟩
  · intro a b h
    cases a <;> cases b <;> first | rfl | exact absurd h (by decide)
  · intro h
    cases h <;> decide
  · intro pol sig run s id arg
    exact ⟨rfl, rfl, rfl⟩
  · intro p q hne
    cases p <;> cases q <;> first | exact absurd rfl hne | decide

/-- C4 witness: the single-thread and the shared policies are observably
distinct, and the tag mapping is applied at the spinlock tag. -/
theorem C4_witness :
    policyObs Policy.nosync ≠ policyObs Policy.shared ∧
    Tag.spinlock_tag = Tag.spinlock_tag :=
  ⟨C4_locking_policies.2.2.2.2 .nosync .shared (by decide),
   C4_locking_policies.2.1
     (show context_trait .spinlock_tag = context_trait .spinlock_tag from rfl)⟩

/- ----- C5 ----- -/

/-- C5 evaluation: the counting behaviour of the handle special members.  Copy
construction of a non-empty handle increments the in-context count by one;
destruction decrements; move construction transfers ownership with the count
untouched; the count reaching zero destroys and deallocates exactly once (a
further release would be a use-after-free, not a second deallocation).  The
last conjunct evaluates copy assignment at the claim's failing input: a
non-empty handle (context count 2, one other handle still alive) assigned an
empty handle — the source's explicit release followed by the temporary's
destructor releases the old context twice, freeing it (count 2 to 0) instead
of leaving the claimed count of 1. -/
theorem C5_copy_assign_eval :
    hCopyCtor true (.live 2) = some (true, .live 3) ∧
    hDtor true (.live 3) = some (.live 2, false) ∧
    hMoveCtor true (.live 2) = ((true, false), .live 2) ∧
    downRef (.live 1) = some (.freed, true) ∧
    downRef .freed = none ∧
    hCopyAssign true false (.live 2) = some (false, .freed, true) ∧
    (CtxLife.freed ≠ CtxLife.live 1) := by
  refine ⟨?_, ?_, ?_, ?_, ?_, ?_, ?_⟩ <;> decide

/- ----- C6 ----- -/

/-- C6: a handle's own state is exactly the pair of a context pointer and a
manager pointer; the type-erased cell is exactly the exception slot, the
callable slot, the result slot and the argument slots, and the full context
adds only the reference count and the lock flag; and every handle operation
reaches the cell only through the single manager function — two
instantiations whose managers agree pointwise are indistinguishable under
every handle operation. -/
theorem C6_cell_and_dispatch :
    Function.Bijective cellAsTuple ∧
    Function.Bijective ctxAsTuple ∧
    Function.Bijective handleAsPair ∧
    (∀ (pol₁ : Policy) (sig₁ : Sig) (run₁ : List ArgVal → Except Exn ResVal)
        (pol₂ : Policy) (sig₂ : Sig) (run₂ : List ArgVal → Except Exn ResVal),
      (∀ a s id g, coreManager pol₁ sig₁ run₁ a s id g = coreManager pol₂ sig₂ run₂ a s id g) →
      (∀ s, opCallStored pol₁ sig₁ run₁ s = opCallStored pol₂ sig₂ run₂ s) ∧
      (∀ tags vals s, opCall pol₁ sig₁ run₁ tags vals s = opCall pol₂ sig₂ run₂ tags vals s) ∧
      (∀ s, opHasResult pol₁ sig₁ run₁ s = opHasResult pol₂ sig₂ run₂ s) ∧
      (∀ s, opHasException pol₁ sig₁ run₁ s = opHasException pol₂ sig₂ run₂ s) ∧
      (∀ s t, isResultOfType pol₁ sig₁ run₁ s t = isResultOfType pol₂ sig₂ run₂ s t) ∧
      (∀ s, futureWait pol₁ sig₁ run₁ s = futureWait pol₂ sig₂ run₂ s) ∧
      (∀ s, futureGet pol₁ sig₁ run₁ s = futureGet pol₂ sig₂ run₂ s)) := by
  refine ⟨⟨?_, ?_⟩, ⟨?_, ?_⟩, ⟨?_, ?_⟩, ?_⟩
  · intro a b h
    cases a; cases b
    simp only [cellAsTuple, Prod.mk.injEq] at h
    simp [h.1, h.2.1, h.2.2.1, h.2.2.2]
  · intro y
    obtain ⟨e, c, r, a⟩ := y
    exact ⟨⟨e, c, r, a⟩, rfl⟩
  · intro a b h
    cases a; cases b
    simp only [ctxAsTuple, Prod.mk.injEq] at h
    simp [h.1, h.2.1, h.2.2]
  · intro y
    obtain ⟨c, n, l⟩ := y
    exact ⟨⟨n, l, c⟩, rfl⟩
  · intro a b h
    cases a; cases b
    simp only [handleAsPair, Prod.mk.injEq] at h
    simp [h.1, h.2]
  · intro y
    obtain ⟨c, m⟩ := y
    exact ⟨⟨c, m⟩, rfl⟩
  · intro pol₁ sig₁ run₁ pol₂ sig₂ run₂ hm
    have hstep : ∀ a s id g, step pol₁ sig₁ run₁ a s id g = step pol₂ sig₂ run₂ a s id g := by
      intro a s id g
      simp [step, hm]
    refine ⟨?_, ?_, ?_, ?_, ?_, ?_, ?_⟩
    · intro s; simp only [opCallStored, hstep]
    · intro tags vals s; simp only [opCall, hstep]
    · intro s; simp only [opHasResult, hstep]
    · intro s; simp only [opHasException, hstep]
    · intro s t; simp only [isResultOfType, hm]
    · intro s; simp only [futureWait, futureWaitCv, hstep]
    · intro s; simp only [futureGet, futureWait, futureWaitCv, hstep]

/-- C6 witness: two syntactically different instantiations with pointwise
equal managers drive a wait identically. -/
theorem C6_witness :
    futureWait .nosync sigS runOk ctxPrepared =
      futureWait .nosync sigS (fun _ => Except.ok 7) ctxPrepared :=
  (C6_cell_and_dispatch.2.2.2 .nosync sigS runOk .nosync sigS (fun _ => Except.ok 7)
    (fun _ _ _ _ => rfl)).2.2.2.2.2.1 ctxPrepared
